import Mathlib

/-!
Verification development for the Excel-vs-PDF comparator (`src/app.py`).

The program reconciles a tabular (Excel) record source against records
recovered from a PDF text stream.  We shallowly embed its operations:
Python string primitives are modelled over `List Char` / `String`
(ASCII semantics: `str.upper` maps `a`-`z` to `A`-`Z`; whitespace is the
ASCII set space/tab/LF/CR/VT/FF), the pandas merge/compare steps are
modelled as list operations, and the regex-driven PDF extractor is
translated pattern-component by pattern-component.
-/

namespace Comparator

/-! ### Python string primitives -/

/-- ASCII whitespace, as stripped by Python `str.strip` and matched by `\s`
(ASCII range): space, tab, newline, carriage return, vertical tab, form feed. -/
def isWs (c : Char) : Bool :=
  c = ' ' || c = '\t' || c = '\n' || c = '\r' || c = '\x0b' || c = '\x0c'

/-- Drop leading whitespace (front half of Python `str.strip`). -/
def stripFront (l : List Char) : List Char := l.dropWhile isWs

/-- Drop trailing whitespace (back half of Python `str.strip`). -/
def stripBack (l : List Char) : List Char :=
  ((l.reverse).dropWhile isWs).reverse

/-- Python `str.strip` on character lists. -/
def pyStripL (l : List Char) : List Char := stripBack (stripFront l)

/-- Python `str.upper` on character lists (ASCII letters only). -/
def pyUpperL (l : List Char) : List Char := l.map Char.toUpper

/-- Python `str.strip` on strings. -/
def pyStrip (s : String) : String := ⟨pyStripL s.data⟩

/-- Python `str.upper` on strings (ASCII letters only). -/
def pyUpper (s : String) : String := ⟨pyUpperL s.data⟩

/-- The comparison-side normalisation used at `src/app.py:143-144`:
`str(...).strip().upper()`. -/
def normValue (s : String) : String := pyUpper (pyStrip s)

/-- Translation of `normalize_result` (`src/app.py:63-70`): strip and
uppercase, then map the result-code synonyms `F -> RA`, `P -> PASS`. -/
def normalize_result (value : String) : String :=
  let v := pyUpper (pyStrip value)
  if v = "F" then "RA" else if v = "P" then "PASS" else v

/-! ### Data model of the reconciler (src/app.py lines 86-159)

An Excel row is an association list from (already renamed) column names to
cell strings, mirroring a pandas row.  A PDF record has the seven fixed
columns produced by `extract_pdf_data`. -/

/-- An Excel-origin record: column name to cell value, in column order. -/
abbrev Row := List (String × String)

/-- Look a column up in a row, first occurrence wins (pandas label lookup). -/
def rowGet (r : Row) (c : String) : Option String :=
  (r.find? (fun pr => pr.1 = c)).map (fun pr => pr.2)

/-- Value of `row.get(name, "")` as used at `src/app.py:143-144`. -/
def rowGetD (r : Row) (c : String) : String := (rowGet r c).getD ""

/-- A PDF-origin record as built by `extract_pdf_data` (`src/app.py:50-58`). -/
structure PdfRecord where
  register_no : String
  sub_code : String
  subject_name : String
  course_credit : String
  grade : String
  grade_point : String
  result : String
deriving DecidableEq

/-- Field access on a PDF record by column name. -/
def pdfField (p : PdfRecord) : String → String
  | "REGISTER_NO" => p.register_no
  | "SUB_CODE" => p.sub_code
  | "SUBJECT_NAME" => p.subject_name
  | "COURSE_CREDIT" => p.course_credit
  | "GRADE" => p.grade
  | "GRADE_POINT" => p.grade_point
  | "RESULT" => p.result
  | _ => ""

/-- The composite-key columns of the merge (`src/app.py:133`). -/
def keyCols : List String := ["REGISTER_NO", "SUB_CODE"]

/-- The columns of the `df_pdf` frame (`src/app.py:50-58`). -/
def pdfCols : List String :=
  ["REGISTER_NO", "SUB_CODE", "SUBJECT_NAME", "COURSE_CREDIT",
   "GRADE", "GRADE_POINT", "RESULT"]

/-- Non-key columns of the `df_pdf` frame. -/
def pdfColsNonKey : List String :=
  ["SUBJECT_NAME", "COURSE_CREDIT", "GRADE", "GRADE_POINT", "RESULT"]

/-- The comparison field set `compare_cols` (`src/app.py:138`). -/
def compare_cols : List String := ["SUBJECT_NAME", "GRADE", "GRADE_POINT", "RESULT"]

/-- Composite key of an Excel row (values of the two key columns). -/
def keyExcel (e : Row) : String × String :=
  (rowGetD e "REGISTER_NO", rowGetD e "SUB_CODE")

/-- Composite key of a PDF record. -/
def keyPdf (p : PdfRecord) : String × String := (p.register_no, p.sub_code)

/-- Label of an Excel column in the merged frame: a non-key column shared
with the PDF frame gains the `_EXCEL` suffix (`suffixes` at `src/app.py:135`). -/
def excelColName (c : String) : String :=
  if c ∈ pdfCols ∧ c ∉ keyCols then c ++ "_EXCEL" else c

/-- Label of a non-key PDF column in the merged frame: it gains the `_PDF`
suffix when shared with the Excel frame. -/
def pdfColName (cols : List String) (c : String) : String :=
  if c ∈ cols then c ++ "_PDF" else c

/-- Column labels of `pd.merge(df_excel, df_pdf, on=keys, suffixes)` at
`src/app.py:131-136`: left columns first (suffixed as above), then the PDF
side's non-key columns. -/
def mergedColumns (cols : List String) : List String :=
  cols.map excelColName ++ pdfColsNonKey.map (pdfColName cols)

/-- One row of the merged frame, for an Excel row and PDF record that
agreed on the composite key. -/
def mergedRow (cols : List String) (e : Row) (p : PdfRecord) : Row :=
  cols.map (fun c => (excelColName c, rowGetD e c)) ++
  pdfColsNonKey.map (fun c => (pdfColName cols c, pdfField p c))

/-- The comparison made for one column of `compare_cols` inside the lambda at
`src/app.py:142-145`: guarded by `f"{col}_PDF" in merged.columns`, it tests
the two origin-suffixed cells for inequality after `.strip().upper()`. -/
def colDiffers (cols : List String) (e : Row) (p : PdfRecord) (col : String) : Bool :=
  decide ((col ++ "_PDF") ∈ mergedColumns cols) &&
    decide (normValue (rowGetD (mergedRow cols e p) (col ++ "_EXCEL")) ≠
            normValue (rowGetD (mergedRow cols e p) (col ++ "_PDF")))

/-- The full mismatch predicate applied to a merged row (`src/app.py:140-149`):
`any(...)` over the comparison columns. -/
def pairDiffers (cols : List String) (e : Row) (p : PdfRecord) : Bool :=
  compare_cols.any (colDiffers cols e p)

/-- All (Excel row, PDF record) pairs produced by the inner merge on the
composite key (`src/app.py:131-136`): every Excel row is paired with every
PDF record carrying the same key (fan-out join). -/
def mergedPairs : List Row → List PdfRecord → List (Row × PdfRecord)
  | [], _ => []
  | e :: es, pdf =>
    ((pdf.filter (fun p => decide (keyPdf p = keyExcel e))).map (fun p => (e, p)))
      ++ mergedPairs es pdf

/-- The merged-row pairs retained by the mismatch filter (`src/app.py:140-149`). -/
def mismatchPairs (cols : List String) (excel : List Row) (pdf : List PdfRecord) :
    List (Row × PdfRecord) :=
  (mergedPairs excel pdf).filter (fun pr => pairDiffers cols pr.1 pr.2)

/-- The merged-row pairs the mismatch filter drops, i.e. the matching pairs. -/
def matchPairs (cols : List String) (excel : List Row) (pdf : List PdfRecord) :
    List (Row × PdfRecord) :=
  (mergedPairs excel pdf).filter (fun pr => !pairDiffers cols pr.1 pr.2)

/-- Helper for `dropDuplicates`: walk the list keeping the first occurrence
of each key, tracking the keys already seen. -/
def dropDupAux : List (String × String) → List (String × String) →
    List (String × String)
  | _, [] => []
  | seen, k :: ks =>
    if k ∈ seen then dropDupAux seen ks else k :: dropDupAux (k :: seen) ks

/-- Key-frame deduplication, first occurrence kept
(`drop_duplicates()` at `src/app.py:152-153`). -/
def dropDuplicates (l : List (String × String)) : List (String × String) :=
  dropDupAux [] l

/-- The deduplicated Excel key frame (`src/app.py:152`). -/
def excelKeys (excel : List Row) : List (String × String) :=
  dropDuplicates (excel.map keyExcel)

/-- The deduplicated PDF key frame (`src/app.py:153`). -/
def pdfKeys (pdf : List PdfRecord) : List (String × String) :=
  dropDuplicates (pdf.map keyPdf)

/-- Keys kept by the `left_only` indicator filter of the left merge at
`src/app.py:155-156`: Excel keys with no equal PDF key. -/
def missing_in_pdf (excel : List Row) (pdf : List PdfRecord) :
    List (String × String) :=
  (excelKeys excel).filter (fun k => decide (k ∉ pdfKeys pdf))

/-- Keys kept by the `left_only` indicator filter of the left merge at
`src/app.py:158-159`: PDF keys with no equal Excel key. -/
def missing_in_excel (excel : List Row) (pdf : List PdfRecord) :
    List (String × String) :=
  (pdfKeys pdf).filter (fun k => decide (k ∉ excelKeys excel))

/-- Number of occurrences of an element in a list (used to state that the
fan-out join drops no duplicate record). -/
def countOcc {α : Type} [DecidableEq α] (x : α) (l : List α) : Nat :=
  (l.filter (fun y => decide (y = x))).length

/-! ### Loading pipeline (src/app.py lines 88-128) -/

/-- The fixed header mapping `HEADER_MAP` (`src/app.py:8-23`). -/
def HEADER_MAP : List (String × String) :=
  [("EXAM", "EXAM"), ("PROGRAMME", "PROGRAMME"), ("REGISTER NO", "REGISTER_NO"),
   ("STUDENT NAME", "NAME"), ("SEM", "SEM_NO"), ("SUBJECT ORDER", "SUB_ORDER"),
   ("SUB CODE", "SUB_CODE"), ("SUBJECT NAME", "SUBJECT_NAME"), ("INT", "INT"),
   ("EXT", "EXT"), ("TOT", "TOTAL"), ("RESULT", "RESULT"), ("GRADE", "GRADE"),
   ("GRADE POINT", "GRADE_POINT")]

/-- Rename one (already stripped/uppercased) header through `HEADER_MAP`;
unrecognised headers pass through (`src/app.py:94-99`). -/
def mapHeader (c : String) : String :=
  match HEADER_MAP.find? (fun pr => pr.1 = c) with
  | some pr => pr.2
  | none => c

/-- The Excel frame's columns after the strip/upper pass of line 90 and the
`HEADER_MAP` renaming of lines 94-99. -/
def loadExcelCols (rawCols : List String) : List String :=
  rawCols.map (fun c => mapHeader (pyUpper (pyStrip c)))

/-- One Excel row after loading: headers renamed as the frame's columns are,
every cell stripped (line 100), and the RESULT column passed through
`normalize_result` when present (lines 102-104). -/
def loadExcelRow (cols : List String) (r : Row) : Row :=
  r.map (fun pr =>
    let c := mapHeader (pyUpper (pyStrip pr.1))
    (c, if c = "RESULT" ∧ "RESULT" ∈ cols
        then normalize_result (pyStrip pr.2) else pyStrip pr.2))

/-- One PDF record after the RESULT normalisation of `src/app.py:128`. -/
def loadPdfRecord (p : PdfRecord) : PdfRecord :=
  { p with result := normalize_result p.result }

/-! ### Spec-side definitions (for refinement comparison)

These two definitions follow the specification's words, not the code; the
theorems below compare the code's behaviour against them. -/

/-- Spec-side definition: the canonical post-synonym value of a raw field
value — strip/upper canonicalisation, plus the value-synonym table (which
acts on the RESULT field only). -/
def specCanonicalValue (col : String) (v : String) : String :=
  if col = "RESULT" then normalize_result v else normValue v

/-- Spec-side definition: a value is absent when its normalised form is the
empty string or the literal token NAN or NONE. -/
def specIsAbsent (v : String) : Bool :=
  normValue v = "" || normValue v = "NAN" || normValue v = "NONE"

/-! ### Concrete sample data (used by witnesses and counterexamples) -/

/-- A fully mapped Excel column list with both key columns and every
comparison column. -/
def stdCols : List String :=
  ["REGISTER_NO", "SUB_CODE", "SUBJECT_NAME", "GRADE", "GRADE_POINT", "RESULT"]

/-- A loaded Excel row agreeing with `pdfA` on every comparison field. -/
def rowA : Row :=
  [("REGISTER_NO", "1"), ("SUB_CODE", "CS1101"), ("SUBJECT_NAME", "DATA"),
   ("GRADE", "A"), ("GRADE_POINT", "8"), ("RESULT", "PASS")]

/-- A loaded Excel row with the same key as `rowA` but grade B. -/
def rowB : Row :=
  [("REGISTER_NO", "1"), ("SUB_CODE", "CS1101"), ("SUBJECT_NAME", "DATA"),
   ("GRADE", "B"), ("GRADE_POINT", "8"), ("RESULT", "PASS")]

/-- A loaded Excel row whose SUBJECT_NAME cell holds the absent token NAN. -/
def rowNan : Row :=
  [("REGISTER_NO", "1"), ("SUB_CODE", "CS1101"), ("SUBJECT_NAME", "NAN"),
   ("GRADE", "A"), ("GRADE_POINT", "8"), ("RESULT", "PASS")]

/-- A PDF record with the same key as the sample rows. -/
def pdfA : PdfRecord := ⟨"1", "CS1101", "DATA", "3", "A", "8", "PASS"⟩

/-- A PDF record whose SUBJECT_NAME holds the absent token NONE, with every
other field equal to `pdfA`. -/
def pdfNone : PdfRecord := ⟨"1", "CS1101", "NONE", "3", "A", "8", "PASS"⟩

/-! ### PDF text extractor (src/app.py lines 26-59)

Each regular-expression component of `extract_pdf_data` is translated into a
recogniser.  Greedy pieces whose follower cannot match any character of the
piece (for example `\s*` followed by a non-whitespace literal, or `\d+`
followed by `\s+`) are matched maximally without backtracking, which agrees
with the regex engine; counted repetitions (`{1,2}`, `{2,3}`) try the longer
count first and fall back, and the lazy group `(.+?)` tries the shortest
prefix first, as the engine does.  Character classes are modelled over the
ASCII ranges the patterns use. -/

/-- One pass of `re.sub(r"\s+", " ", ...)` (`src/app.py:33`): replace every
maximal whitespace run by a single space.  The flag records whether the
previous character was inside a run. -/
def collapseGo : Bool → List Char → List Char
  | _, [] => []
  | true, c :: cs =>
    if isWs c then collapseGo true cs else c :: collapseGo false cs
  | false, c :: cs =>
    if isWs c then ' ' :: collapseGo true cs else c :: collapseGo false cs

/-- Replace every maximal whitespace run by a single space. -/
def collapseRuns (l : List Char) : List Char := collapseGo false l

/-- The pre-cleaning of the raw text stream at `src/app.py:33`:
`re.sub(r"\s+", " ", text_data.strip())`. -/
def preprocessText (text : String) : List Char :=
  collapseRuns (pyStripL text.data)

/-- Spec-side definition: the preprocessing as the specification words it —
every whitespace run replaced by a single space and the result uppercased. -/
def specClaimedPreprocess (text : String) : List Char :=
  pyUpperL (collapseRuns text.data)

/-- Boolean check that no two adjacent characters are both whitespace. -/
def noAdjWs : List Char → Bool
  | a :: b :: t => ((!isWs a) || (!isWs b)) && noAdjWs (b :: t)
  | _ => true

/-- Case-insensitive literal matcher (the IGNORECASE flag of the patterns):
consume the literal from the input, comparing ASCII-uppercased characters,
returning the rest of the input. -/
def matchLitCI : List Char → List Char → Option (List Char)
  | [], s => some s
  | _ :: _, [] => none
  | c :: cs, d :: ds =>
    if c.toUpper = d.toUpper then matchLitCI cs ds else none

/-- Component `\*{3}`: exactly three asterisks. -/
def matchStars : List Char → Option (List Char)
  | '*' :: '*' :: '*' :: rest => some rest
  | _ => none

/-- The block terminator `\*{3}\s*END OF STATEMENT\s*\*{3}` (IGNORECASE) of
`re.split` at `src/app.py:37`.  Both `\s*` are followed by non-whitespace
literals, so they match maximally. -/
def matchTerminator (s : List Char) : Option (List Char) :=
  match matchStars s with
  | none => none
  | some s1 =>
    match matchLitCI "END OF STATEMENT".data (s1.dropWhile isWs) with
    | none => none
    | some s2 => matchStars (s2.dropWhile isWs)

/-- Scanner of `re.split` on the terminator: try the pattern at every
position, cutting a piece at each leftmost non-overlapping match.  A fuel
argument (one unit per examined character) makes the recursion structural; a
successful match consumes at least one character, so fuel equal to the input
length never runs out before the input does. -/
def splitTermGo : Nat → List Char → List Char → List (List Char)
  | 0, acc, s => [acc.reverse ++ s]
  | _ + 1, acc, [] => [acc.reverse]
  | fuel + 1, acc, c :: cs =>
    match matchTerminator (c :: cs) with
    | some rest => acc.reverse :: splitTermGo fuel [] rest
    | none => splitTermGo fuel (c :: acc) cs

/-- Split the text stream into student blocks (`src/app.py:37`). -/
def splitTerm (s : List Char) : List (List Char) := splitTermGo s.length [] s

/-- The key pattern `REGISTER\s*NO\.?\s*:?[\s]*([0-9]+)` (IGNORECASE) of
`re.search` at `src/app.py:38`, anchored at the current position.  The
optional `\.?` and `:?` consume their character when present (no later
piece can match `.` or `:`, so skipping could never succeed where consuming
fails), and the digit capture is the maximal digit run. -/
def matchRegisterKey (s : List Char) : Option (List Char) :=
  match matchLitCI "REGISTER".data s with
  | none => none
  | some s1 =>
    match matchLitCI "NO".data (s1.dropWhile isWs) with
    | none => none
    | some s2 =>
      let s3 := match s2 with
        | '.' :: r => r
        | r => r
      let s4 := s3.dropWhile isWs
      let s5 := match s4 with
        | ':' :: r => r
        | r => r
      let s6 := s5.dropWhile isWs
      let d := s6.takeWhile Char.isDigit
      if d.isEmpty then none else some d

/-- Leftmost `re.search` for the register-number pattern. -/
def searchRegisterKey : List Char → Option (List Char)
  | [] => none
  | c :: cs =>
    match matchRegisterKey (c :: cs) with
    | some d => some d
    | none => searchRegisterKey cs

/-- Consume exactly `n` characters satisfying `p`, returning them and the
rest. -/
def takeCount (p : Char → Bool) : Nat → List Char → Option (List Char × List Char)
  | 0, s => some ([], s)
  | _ + 1, [] => none
  | n + 1, c :: cs =>
    if p c then
      match takeCount p n cs with
      | some pr => some (c :: pr.1, pr.2)
      | none => none
    else none

/-- Lookahead component `\d{4}`. -/
def la4digits (s : List Char) : Bool :=
  match takeCount Char.isDigit 4 s with
  | some _ => true
  | none => false

/-- Lookahead component `[A-Z]{2,3}\d{4}` (no IGNORECASE on this split, so
upper-case letters only); greedy count 3 first, then 2. -/
def laLetters (s : List Char) : Bool :=
  (match takeCount Char.isUpper 3 s with
   | some pr => la4digits pr.2
   | none => false) ||
  (match takeCount Char.isUpper 2 s with
   | some pr => la4digits pr.2
   | none => false)

/-- Lookahead component `\s+[A-Z]{2,3}\d{4}`; `\s+` is followed by a
non-whitespace class, so it matches maximally. -/
def laWsThenLetters (s : List Char) : Bool :=
  match s with
  | c :: cs => isWs c && laLetters (cs.dropWhile isWs)
  | [] => false

/-- The zero-width lookahead `(?=\d{1,2}\s+[A-Z]{2,3}\d{4})` of the line
re-segmentation at `src/app.py:44`. -/
def lineStartLA (s : List Char) : Bool :=
  (match takeCount Char.isDigit 2 s with
   | some pr => laWsThenLetters pr.2
   | none => false) ||
  (match takeCount Char.isDigit 1 s with
   | some pr => laWsThenLetters pr.2
   | none => false)

/-- Python `re.split` on a zero-width lookahead: cut before every position
where the lookahead matches (an empty first piece results when it matches at
position 0); after a cut the scan advances one character, as the engine does
after an empty match. -/
def splitLAGo : List Char → List Char → List (List Char)
  | acc, [] => [acc.reverse]
  | acc, c :: cs =>
    if lineStartLA (c :: cs) then acc.reverse :: splitLAGo [c] cs
    else splitLAGo (c :: acc) cs

/-- Re-segment a block into candidate subject lines (`src/app.py:44`). -/
def splitLA (s : List Char) : List (List Char) := splitLAGo [] s

/-- Component `\d+` (maximal digit run, at least one). -/
def digitsPlus (s : List Char) : Option (List Char × List Char) :=
  let d := s.takeWhile Char.isDigit
  if d.isEmpty then none else some (d, s.dropWhile Char.isDigit)

/-- Component `\s+` followed by a non-whitespace piece: at least one
whitespace character, consumed maximally. -/
def wsPlus (s : List Char) : Option (List Char) :=
  match s with
  | c :: cs => if isWs c then some (cs.dropWhile isWs) else none
  | [] => none

/-- The class `[A-Z\+OU]` under IGNORECASE: ASCII letters or `+` (O and U
are redundant members). -/
def isGradeChar (c : Char) : Bool := c.isAlpha || c = '+'

/-- Two-letter alternative of the subject-code group. -/
def matchSubCode2 (s : List Char) : Option (List Char × List Char) :=
  match takeCount Char.isAlpha 2 s with
  | some pr =>
    (match takeCount Char.isDigit 4 pr.2 with
     | some pr2 => some (pr.1 ++ pr2.1, pr2.2)
     | none => none)
  | none => none

/-- Group 1, `([A-Z]{2,3}\d{4})` with IGNORECASE: three letters then four
digits, backtracking to two letters. -/
def matchSubCode (s : List Char) : Option (List Char × List Char) :=
  match takeCount Char.isAlpha 3 s with
  | some pr =>
    (match takeCount Char.isDigit 4 pr.2 with
     | some pr2 => some (pr.1 ++ pr2.1, pr2.2)
     | none => matchSubCode2 s)
  | none => matchSubCode2 s

/-- Group 3, `(\d+(?:\.\d+)?)`: integer digits and an optional fractional
part (taken when present — no later piece can match `.` or a digit, so
skipping an available fraction could never help). -/
def matchCredit (s : List Char) : Option (List Char × List Char) :=
  match digitsPlus s with
  | none => none
  | some (d, r) =>
    match r with
    | '.' :: r2 =>
      (match digitsPlus r2 with
       | some (f, r3) => some (d ++ '.' :: f, r3)
       | none => some (d, r))
    | _ => some (d, r)

/-- Group 4, `([A-Z\+OU]{1,2})` with IGNORECASE: two class characters,
backtracking to one (the follower `\s+` cannot match a class character). -/
def matchGrade (s : List Char) : Option (List Char × List Char) :=
  match takeCount isGradeChar 2 s with
  | some pr => some pr
  | none => takeCount isGradeChar 1 s

/-- Group 6, `(PASS|RA)` with IGNORECASE; the captured text keeps the input's
case. -/
def matchResultTok (s : List Char) : Option (List Char) :=
  match matchLitCI "PASS".data s with
  | some _ => some (s.take 4)
  | none =>
    match matchLitCI "RA".data s with
    | some _ => some (s.take 2)
    | none => none

/-- The captures of one subject line. -/
structure LineCaps where
  subCode : List Char
  subject : List Char
  credit : List Char
  grade : List Char
  gpoint : List Char
  result : List Char

/-- The line pattern's tail after the lazy description group:
`\s+(\d+(?:\.\d+)?)\s+([A-Z\+OU]{1,2})\s+(\d+)\s+(PASS|RA)`. -/
def matchTail (s : List Char) :
    Option (List Char × List Char × List Char × List Char) :=
  match wsPlus s with
  | none => none
  | some s1 =>
    match matchCredit s1 with
    | none => none
    | some (g3, s2) =>
      match wsPlus s2 with
      | none => none
      | some s3 =>
        match matchGrade s3 with
        | none => none
        | some (g4, s4) =>
          match wsPlus s4 with
          | none => none
          | some s5 =>
            match digitsPlus s5 with
            | none => none
            | some (g5, s6) =>
              match wsPlus s6 with
              | none => none
              | some s7 =>
                match matchResultTok s7 with
                | none => none
                | some g6 => some (g3, g4, g5, g6)

/-- The lazy group `(.+?)` followed by the tail: take the shortest non-empty
prefix (`.` matches anything but a newline) whose remainder matches the
tail. -/
def findDescSplit : List Char → List Char →
    Option (List Char × (List Char × List Char × List Char × List Char))
  | _, [] => none
  | acc, c :: cs =>
    if c = '\n' then none
    else
      match matchTail cs with
      | some caps => some ((c :: acc).reverse, caps)
      | none => findDescSplit (c :: acc) cs

/-- The anchored line pattern of `src/app.py:45-48`,
`^\s*\d+\s+([A-Z]{2,3}\d{4})\s+(.+?)\s+...` with IGNORECASE, applied to the
stripped line; the `^` anchor (without MULTILINE) restricts `re.search` to
position zero. -/
def matchLine (line : List Char) : Option LineCaps :=
  let s0 := line.dropWhile isWs
  match digitsPlus s0 with
  | none => none
  | some (_, s1) =>
    match wsPlus s1 with
    | none => none
    | some s2 =>
      match matchSubCode s2 with
      | none => none
      | some (g1, s3) =>
        match wsPlus s3 with
        | none => none
        | some s4 =>
          match findDescSplit [] s4 with
          | none => none
          | some (g2, caps) =>
            some ⟨g1, g2, caps.1, caps.2.1, caps.2.2.1, caps.2.2.2⟩

/-- Concatenation of per-block record lists. -/
def concatAll : List (List PdfRecord) → List PdfRecord
  | [] => []
  | l :: ls => l ++ concatAll ls

/-- Records recovered from one student block (`src/app.py:38-58`): find the
register number (skipping the whole block when absent), re-segment into
candidate lines, and keep one record per line matching the field pattern
(`.strip()` and `.upper()` applied to captures as in lines 50-58). -/
def extractBlock (block : List Char) : List PdfRecord :=
  match searchRegisterKey block with
  | none => []
  | some regno =>
    (splitLA block).filterMap (fun line =>
      (matchLine (pyStripL line)).map (fun m =>
        { register_no := ⟨pyStripL regno⟩
          sub_code := ⟨pyUpperL (pyStripL m.subCode)⟩
          subject_name := ⟨pyStripL m.subject⟩
          course_credit := ⟨pyStripL m.credit⟩
          grade := ⟨pyUpperL (pyStripL m.grade)⟩
          grade_point := ⟨pyStripL m.gpoint⟩
          result := ⟨pyUpperL (pyStripL m.result)⟩ }))

/-- Translation of `extract_pdf_data` (`src/app.py:26-59`) applied to the
raw text stream produced by the PDF-to-text converter: strip and collapse
whitespace (line 33), split into blocks on the terminator (line 37), and
extract every block's records. -/
def extract_pdf_data (text : String) : List PdfRecord :=
  concatAll ((splitTerm (preprocessText text)).map extractBlock)

/-! ### The full run (src/app.py lines 86-159) -/

/-- The three output collections of a completed run. -/
structure Report where
  mismatchRows : List Row
  missingPdf : List (String × String)
  missingExcel : List (String × String)
deriving DecidableEq

/-- Control flow of the app body (`src/app.py:86-191`): load the Excel
frame, extract the PDF records, abort with an error message when extraction
yields no records (lines 120-122, `st.stop`), then — the merge at line 131
(and the key-frame projections at lines 152-159) name both key columns, so
when either is missing from the mapped Excel columns pandas raises
`KeyError`, which the handler at line 191 reports as an error with no
report produced (modelled as `none`) — otherwise normalise the PDF RESULT
column (line 128) and produce the three report collections. -/
def runCompare (rawCols : List String) (rawRows : List Row)
    (pdfText : String) : Option Report :=
  let cols := loadExcelCols rawCols
  let excel := rawRows.map (loadExcelRow cols)
  let df_pdf := extract_pdf_data pdfText
  if df_pdf.isEmpty then none
  else if "REGISTER_NO" ∈ cols ∧ "SUB_CODE" ∈ cols then
    let pdf := df_pdf.map loadPdfRecord
    some { mismatchRows := (mismatchPairs cols excel pdf).map
             (fun pr => mergedRow cols pr.1 pr.2)
           missingPdf := missing_in_pdf excel pdf
           missingExcel := missing_in_excel excel pdf }
  else none

/-- A small PDF text stream containing one block with one subject line. -/
def samplePdfText : String := "REGISTER NO 1 1 AB1234 N 3 A 8 PASS"

/-! ### Character-level lemmas -/

theorem toNat_ofNat_valid {n : Nat} (h : n.isValidChar) : (Char.ofNat n).toNat = n := by
  rw [Char.ofNat, dif_pos h]
  rfl

theorem toNat_toUpper (c : Char) :
    c.toUpper.toNat = if c.toNat ≥ 97 ∧ c.toNat ≤ 122 then c.toNat - 32 else c.toNat := by
  simp only [Char.toUpper]
  split
  · next h =>
    exact toNat_ofNat_valid (Or.inl (by omega))
  · rfl

theorem toUpper_eq_self {c : Char} (h : ¬(c.toNat ≥ 97 ∧ c.toNat ≤ 122)) :
    c.toUpper = c := by
  simp only [Char.toUpper]
  exact if_neg h

theorem toUpper_toUpper (c : Char) : c.toUpper.toUpper = c.toUpper := by
  by_cases h : c.toNat ≥ 97 ∧ c.toNat ≤ 122
  · apply toUpper_eq_self
    rw [toNat_toUpper, if_pos h]
    omega
  · rw [toUpper_eq_self h, toUpper_eq_self h]

theorem eq_iff_toNat_eq {c d : Char} : c = d ↔ c.toNat = d.toNat := by
  constructor
  · intro h; rw [h]
  · intro h
    apply Char.eq_of_val_eq
    apply UInt32.eq_of_toBitVec_eq
    apply BitVec.eq_of_toNat_eq
    exact h

theorem isWs_iff_toNat (c : Char) :
    isWs c = true ↔
      c.toNat = 32 ∨ c.toNat = 9 ∨ c.toNat = 10 ∨ c.toNat = 13 ∨
      c.toNat = 11 ∨ c.toNat = 12 := by
  simp only [isWs, Bool.or_eq_true, decide_eq_true_eq]
  rw [eq_iff_toNat_eq, eq_iff_toNat_eq, eq_iff_toNat_eq, eq_iff_toNat_eq,
    eq_iff_toNat_eq, eq_iff_toNat_eq]
  have e1 : (' ' : Char).toNat = 32 := rfl
  have e2 : ('\t' : Char).toNat = 9 := rfl
  have e3 : ('\n' : Char).toNat = 10 := rfl
  have e4 : ('\r' : Char).toNat = 13 := rfl
  have e5 : ('\x0b' : Char).toNat = 11 := rfl
  have e6 : ('\x0c' : Char).toNat = 12 := rfl
  rw [e1, e2, e3, e4, e5, e6]
  tauto

theorem isWs_toUpper (c : Char) : isWs c.toUpper = isWs c := by
  by_cases h : c.toNat ≥ 97 ∧ c.toNat ≤ 122
  · have h1 : c.toUpper.toNat = c.toNat - 32 := by rw [toNat_toUpper, if_pos h]
    have h2 : isWs c.toUpper = false := by
      rw [← Bool.not_eq_true, isWs_iff_toNat]; omega
    have h3 : isWs c = false := by
      rw [← Bool.not_eq_true, isWs_iff_toNat]; omega
    rw [h2, h3]
  · rw [toUpper_eq_self h]

/-! ### Strip / upper interaction lemmas -/

theorem dropWhile_map_toUpper (l : List Char) :
    (pyUpperL l).dropWhile isWs = pyUpperL (l.dropWhile isWs) := by
  induction l with
  | nil => rfl
  | cons c cs ih =>
    simp only [pyUpperL, List.map_cons, List.dropWhile_cons, isWs_toUpper]
    by_cases h : isWs c
    · rw [if_pos h, if_pos h]; exact ih
    · rw [if_neg h, if_neg h]
      rfl

theorem stripFront_pyUpperL (l : List Char) :
    stripFront (pyUpperL l) = pyUpperL (stripFront l) :=
  dropWhile_map_toUpper l

theorem stripBack_pyUpperL (l : List Char) :
    stripBack (pyUpperL l) = pyUpperL (stripBack l) := by
  simp only [stripBack, pyUpperL]
  rw [← List.map_reverse, ← pyUpperL, dropWhile_map_toUpper, pyUpperL, List.map_reverse]

theorem pyStripL_pyUpperL (l : List Char) :
    pyStripL (pyUpperL l) = pyUpperL (pyStripL l) := by
  simp only [pyStripL]
  rw [stripFront_pyUpperL, stripBack_pyUpperL]

theorem pyUpperL_pyUpperL (l : List Char) : pyUpperL (pyUpperL l) = pyUpperL l := by
  simp only [pyUpperL, List.map_map]
  apply List.map_congr_left
  intro c _
  exact toUpper_toUpper c

theorem dropWhile_dropWhile (p : Char → Bool) (l : List Char) :
    (l.dropWhile p).dropWhile p = l.dropWhile p := by
  induction l with
  | nil => rfl
  | cons c cs ih =>
    rw [List.dropWhile_cons]
    by_cases h : p c
    · rw [if_pos h]; exact ih
    · rw [if_neg h, List.dropWhile_cons, if_neg h]

theorem stripFront_stripFront (l : List Char) :
    stripFront (stripFront l) = stripFront l :=
  dropWhile_dropWhile isWs l

theorem dropWhile_append_singleton {c : Char} (h : isWs c = false) (l : List Char) :
    (l ++ [c]).dropWhile isWs = l.dropWhile isWs ++ [c] := by
  induction l with
  | nil => simp [List.dropWhile_cons, h]
  | cons d ds ih =>
    simp only [List.cons_append, List.dropWhile_cons]
    by_cases hd : isWs d
    · rw [if_pos hd, if_pos hd]; exact ih
    · rw [if_neg hd, if_neg hd, List.cons_append]

theorem stripBack_cons_not_ws {c : Char} (h : isWs c = false) (t : List Char) :
    stripBack (c :: t) = c :: stripBack t := by
  simp only [stripBack, List.reverse_cons]
  rw [dropWhile_append_singleton h, List.reverse_append]
  rfl

theorem stripBack_cons_ws {c : Char} (h : isWs c = true) (t : List Char) :
    stripBack (c :: t) = if stripBack t = [] then [] else c :: stripBack t := by
  have hrw : (c :: t).reverse = t.reverse ++ [c] := by simp
  by_cases he : (t.reverse).dropWhile isWs = []
  · have h1 : stripBack t = [] := by simp [stripBack, he]
    rw [if_pos h1]
    simp only [stripBack, hrw, List.dropWhile_append, he]
    simp [List.dropWhile_cons, h]
  · have h1 : ¬ stripBack t = [] := by
      simpa [stripBack, List.reverse_eq_nil_iff] using he
    rw [if_neg h1]
    have hne : ((t.reverse).dropWhile isWs).isEmpty = false := by
      rcases hx : (t.reverse).dropWhile isWs with _ | ⟨a, as⟩
      · exact absurd hx he
      · rfl
    simp only [stripBack, hrw, List.dropWhile_append, hne]
    simp [List.reverse_append]

theorem stripFront_stripBack (l : List Char) :
    stripFront (stripBack l) = stripBack (stripFront l) := by
  induction l with
  | nil => rfl
  | cons c t ih =>
    by_cases h : isWs c
    · rw [stripBack_cons_ws h,
        show stripFront (c :: t) = stripFront t from List.dropWhile_cons_of_pos h, ← ih]
      by_cases he : stripBack t = []
      · rw [if_pos he, he]
      · rw [if_neg he]
        exact (show stripFront (c :: stripBack t) = stripFront (stripBack t) from
          List.dropWhile_cons_of_pos h)
    · have hb' : isWs c = false := by simpa using h
      have hb := stripBack_cons_not_ws hb' t
      rw [show stripFront (c :: t) = c :: t from List.dropWhile_cons_of_neg h, hb]
      exact (show stripFront (c :: stripBack t) = c :: stripBack t from
        List.dropWhile_cons_of_neg h)

theorem stripBack_stripBack (l : List Char) :
    stripBack (stripBack l) = stripBack l := by
  simp only [stripBack, List.reverse_reverse]
  rw [dropWhile_dropWhile]

theorem pyStripL_pyStripL (l : List Char) : pyStripL (pyStripL l) = pyStripL l := by
  simp only [pyStripL]
  rw [stripFront_stripBack, stripBack_stripBack, stripFront_stripFront]

theorem data_pyStrip (s : String) : (pyStrip s).data = pyStripL s.data := rfl

theorem data_pyUpper (s : String) : (pyUpper s).data = pyUpperL s.data := rfl

theorem string_ext {a b : String} (h : a.data = b.data) : a = b := by
  cases a; cases b
  exact congrArg String.mk h

theorem normValue_normValue (s : String) : normValue (normValue s) = normValue s := by
  simp only [normValue]
  apply string_ext
  simp only [data_pyUpper, data_pyStrip, data_pyUpper, data_pyStrip]
  rw [pyStripL_pyUpperL, pyUpperL_pyUpperL, pyStripL_pyStripL]

theorem normValue_pyStrip (s : String) : normValue (pyStrip s) = normValue s := by
  simp only [normValue]
  apply string_ext
  simp only [data_pyUpper, data_pyStrip]
  rw [pyStripL_pyStripL]

theorem normValue_pyUpper_pyStrip (s : String) :
    normValue (pyUpper (pyStrip s)) = normValue s := by
  simp only [normValue]
  apply string_ext
  simp only [data_pyUpper, data_pyStrip]
  rw [pyStripL_pyUpperL, pyUpperL_pyUpperL, pyStripL_pyStripL]

theorem normalize_result_eq (s : String) :
    normalize_result s =
      if normValue s = "F" then "RA"
      else if normValue s = "P" then "PASS" else normValue s := rfl

theorem normalize_result_congr {a b : String} (h : normValue a = normValue b) :
    normalize_result a = normalize_result b := by
  rw [normalize_result_eq, normalize_result_eq, h]

theorem normalize_result_pyStrip (s : String) :
    normalize_result (pyStrip s) = normalize_result s :=
  normalize_result_congr (normValue_pyStrip s)

theorem normalize_result_pyUpper_pyStrip (s : String) :
    normalize_result (pyUpper (pyStrip s)) = normalize_result s :=
  normalize_result_congr (normValue_pyUpper_pyStrip s)

theorem normValue_normalize_result (s : String) :
    normValue (normalize_result s) = normalize_result s := by
  rw [normalize_result_eq s]
  by_cases h1 : normValue s = "F"
  · rw [if_pos h1]; decide
  · rw [if_neg h1]
    by_cases h2 : normValue s = "P"
    · rw [if_pos h2]; decide
    · rw [if_neg h2]; exact normValue_normValue s

theorem normalize_result_idem (s : String) :
    normalize_result (normalize_result s) = normalize_result s := by
  rw [normalize_result_eq s]
  by_cases h1 : normValue s = "F"
  · rw [if_pos h1]; decide
  · rw [if_neg h1]
    by_cases h2 : normValue s = "P"
    · rw [if_pos h2]; decide
    · rw [if_neg h2]
      rw [normalize_result_congr (normValue_normValue s), normalize_result_eq s,
        if_neg h1, if_neg h2]

/-! ### Claim C10: idempotence of value normalisation -/

/-- C10: value normalisation is idempotent — normalising an already
normalised value yields the same value, both for the strip/upper comparison
normalisation and for the RESULT normalisation `normalize_result`, so
applying the result normalisation twice equals applying it once. -/
theorem C10_normalization_idempotent :
    (∀ v : String, normValue (normValue v) = normValue v) ∧
    (∀ v : String, normalize_result (normalize_result v) = normalize_result v) :=
  ⟨normValue_normValue, normalize_result_idem⟩

/-! ### Claim C9: the synonym mapping is applied identically to both origins -/

/-- Comparison-time value of an Excel-origin RESULT cell: the raw cell is
stripped on load (`src/app.py:100`), passed through `normalize_result`
(line 104), and compared after strip/upper (line 143). -/
def excelResultCompareValue (v : String) : String :=
  normValue (normalize_result (pyStrip v))

/-- Comparison-time value of a PDF-origin RESULT token: the captured token is
stripped and uppercased (`src/app.py:57`), passed through `normalize_result`
(line 128), and compared after strip/upper (line 144). -/
def pdfResultCompareValue (v : String) : String :=
  normValue (normalize_result (pyUpper (pyStrip v)))

/-- C9: the RESULT value-synonym mapping (F to RA, P to PASS, other values
passed through strip/upper canonicalisation unchanged) is applied identically
to tabular-origin and text-origin values before any comparison: for every raw
value both origins' comparison-time values equal `normalize_result` of the
raw value, so no mismatch can arise from one-sided synonym application. -/
theorem C9_synonym_applied_symmetrically (v : String) :
    excelResultCompareValue v = pdfResultCompareValue v ∧
    excelResultCompareValue v = normalize_result v ∧
    normalize_result v =
      (if normValue v = "F" then "RA"
       else if normValue v = "P" then "PASS" else normValue v) := by
  have he : excelResultCompareValue v = normalize_result v := by
    simp only [excelResultCompareValue]
    rw [normalize_result_pyStrip, normValue_normalize_result]
  have hp : pdfResultCompareValue v = normalize_result v := by
    simp only [pdfResultCompareValue]
    rw [normalize_result_pyUpper_pyStrip, normValue_normalize_result]
  exact ⟨he.trans hp.symm, he, normalize_result_eq v⟩

/-! ### Merge lemmas and claim C4 (fan-out join) -/

theorem mem_pairsFor {e0 e : Row} {p : PdfRecord} {pdf : List PdfRecord} :
    (e, p) ∈ (pdf.filter (fun q => decide (keyPdf q = keyExcel e0))).map
        (fun q => (e0, q)) ↔
      e = e0 ∧ p ∈ pdf ∧ keyPdf p = keyExcel e0 := by
  rw [List.mem_map]
  constructor
  · rintro ⟨q, hq, heq⟩
    have h1 : e0 = e := congrArg Prod.fst heq
    have h2 : q = p := congrArg Prod.snd heq
    subst h1
    subst h2
    rw [List.mem_filter, decide_eq_true_eq] at hq
    exact ⟨rfl, hq.1, hq.2⟩
  · rintro ⟨he, hp, hk⟩
    subst he
    refine ⟨p, ?_, rfl⟩
    rw [List.mem_filter, decide_eq_true_eq]
    exact ⟨hp, hk⟩

theorem mem_mergedPairs {excel : List Row} {pdf : List PdfRecord} {e : Row}
    {p : PdfRecord} :
    (e, p) ∈ mergedPairs excel pdf ↔
      e ∈ excel ∧ p ∈ pdf ∧ keyPdf p = keyExcel e := by
  induction excel with
  | nil => simp [mergedPairs]
  | cons e0 es ih =>
    show (e, p) ∈ _ ++ mergedPairs es pdf ↔ _
    rw [List.mem_append, mem_pairsFor, ih, List.mem_cons]
    constructor
    · rintro (⟨he, hp, hk⟩ | ⟨he, hp, hk⟩)
      · subst he
        exact ⟨Or.inl rfl, hp, hk⟩
      · exact ⟨Or.inr he, hp, hk⟩
    · rintro ⟨he | he, hp, hk⟩
      · subst he
        exact Or.inl ⟨rfl, hp, hk⟩
      · exact Or.inr ⟨he, hp, hk⟩

theorem countOcc_cons {α : Type} [DecidableEq α] (x y : α) (l : List α) :
    countOcc x (y :: l) = (if y = x then 1 else 0) + countOcc x l := by
  simp only [countOcc, List.filter_cons]
  by_cases h : y = x
  · simp [h, Nat.add_comm]
  · simp [h]

theorem countOcc_append {α : Type} [DecidableEq α] (x : α) (a b : List α) :
    countOcc x (a ++ b) = countOcc x a + countOcc x b := by
  simp [countOcc, List.filter_append]

theorem countOcc_filter {α : Type} [DecidableEq α] (x : α) (q : α → Bool)
    (l : List α) :
    countOcc x (l.filter q) = if q x then countOcc x l else 0 := by
  induction l with
  | nil => simp [countOcc]
  | cons y l ih =>
    by_cases hy : q y
    · rw [List.filter_cons_of_pos hy, countOcc_cons, ih, countOcc_cons]
      by_cases hx : q x
      · rw [if_pos hx, if_pos hx]
      · rw [if_neg hx, if_neg hx,
          if_neg (show ¬ y = x from fun hc => hx (hc ▸ hy))]
    · rw [List.filter_cons_of_neg hy, ih, countOcc_cons]
      by_cases hx : q x
      · rw [if_pos hx, if_pos hx,
          if_neg (show ¬ y = x from fun hc => hy (hc ▸ hx))]
        omega
      · rw [if_neg hx, if_neg hx]

theorem countOcc_pairMap (e0 e : Row) (p : PdfRecord) (l : List PdfRecord) :
    countOcc (e, p) (l.map (fun q => (e0, q))) =
      if e0 = e then countOcc p l else 0 := by
  induction l with
  | nil => simp [countOcc]
  | cons q l ih =>
    rw [List.map_cons, countOcc_cons, ih, countOcc_cons]
    by_cases he : e0 = e
    · subst he
      rw [if_pos rfl, if_pos rfl]
      by_cases hq : q = p
      · subst hq
        rw [if_pos rfl, if_pos rfl]
      · rw [if_neg (show ¬ (e0, q) = (e0, p) from
            fun hc => hq (congrArg Prod.snd hc)), if_neg hq]
    · rw [if_neg he, if_neg he,
        if_neg (show ¬ (e0, q) = (e, p) from fun hc => he (congrArg Prod.fst hc))]

theorem countOcc_mergedPairs (excel : List Row) (pdf : List PdfRecord)
    (e : Row) (p : PdfRecord) :
    countOcc (e, p) (mergedPairs excel pdf) =
      countOcc e excel *
        (if keyPdf p = keyExcel e then countOcc p pdf else 0) := by
  induction excel with
  | nil => simp [mergedPairs, countOcc]
  | cons e0 es ih =>
    show countOcc (e, p)
        (((pdf.filter (fun q => decide (keyPdf q = keyExcel e0))).map
          (fun q => (e0, q))) ++ mergedPairs es pdf) = _
    rw [countOcc_append, countOcc_pairMap, countOcc_filter, ih, countOcc_cons]
    simp only [decide_eq_true_eq]
    by_cases he : e0 = e
    · subst he
      rw [if_pos rfl]
      by_cases hk : keyPdf p = keyExcel e0
      · rw [if_pos hk, if_pos (show e0 = e0 from rfl)]
        ring
      · rw [if_neg hk, if_pos (show e0 = e0 from rfl)]
        ring
    · rw [if_neg he, if_neg he]
      ring

/-- C4: duplicate keys fan out in the join: a given (Excel record, PDF
record) pair occurs among the merge's comparisons exactly
(multiplicity in Excel) times (multiplicity in PDF) when their composite
keys agree — and never otherwise — so every tabular record with a key is
compared against every text record with that key and no duplicate record is
dropped from comparison. -/
theorem C4_fanout_join (excel : List Row) (pdf : List PdfRecord) (e : Row)
    (p : PdfRecord) :
    countOcc (e, p) (mergedPairs excel pdf) =
      countOcc e excel *
        (if keyPdf p = keyExcel e then countOcc p pdf else 0) ∧
    ((e, p) ∈ mergedPairs excel pdf ↔
      e ∈ excel ∧ p ∈ pdf ∧ keyPdf p = keyExcel e) :=
  ⟨countOcc_mergedPairs excel pdf e p, mem_mergedPairs⟩

/-! ### Missing-set lemmas and claim C6 -/

theorem mem_dropDupAux {x : String × String} (l : List (String × String)) :
    ∀ seen, (x ∈ dropDupAux seen l ↔ x ∈ l ∧ ¬ x ∈ seen) := by
  induction l with
  | nil =>
    intro seen
    simp [dropDupAux]
  | cons k ks ih =>
    intro seen
    show x ∈ (if k ∈ seen then dropDupAux seen ks
        else k :: dropDupAux (k :: seen) ks) ↔ _
    by_cases hk : k ∈ seen
    · rw [if_pos hk, ih seen]
      constructor
      · rintro ⟨h1, h2⟩
        exact ⟨List.mem_cons_of_mem _ h1, h2⟩
      · rintro ⟨h1, h2⟩
        rcases List.mem_cons.mp h1 with rfl | h1'
        · exact absurd hk h2
        · exact ⟨h1', h2⟩
    · rw [if_neg hk, List.mem_cons, ih (k :: seen)]
      constructor
      · rintro (rfl | ⟨h1, h2⟩)
        · exact ⟨List.mem_cons_self _ _, hk⟩
        · exact ⟨List.mem_cons_of_mem _ h1,
            fun hc => h2 (List.mem_cons_of_mem _ hc)⟩
      · rintro ⟨h1, h2⟩
        by_cases hxk : x = k
        · exact Or.inl hxk
        · rcases List.mem_cons.mp h1 with rfl | h1'
          · exact Or.inl rfl
          · refine Or.inr ⟨h1', fun hc => ?_⟩
            rcases List.mem_cons.mp hc with heq | hc'
            · exact hxk heq
            · exact h2 hc'

theorem mem_dropDuplicates {x : String × String} {l : List (String × String)} :
    x ∈ dropDuplicates l ↔ x ∈ l := by
  rw [dropDuplicates, mem_dropDupAux l []]
  simp

theorem mem_excelKeys {excel : List Row} {k : String × String} :
    k ∈ excelKeys excel ↔ ∃ e ∈ excel, keyExcel e = k := by
  rw [excelKeys, mem_dropDuplicates, List.mem_map]

theorem mem_pdfKeys {pdf : List PdfRecord} {k : String × String} :
    k ∈ pdfKeys pdf ↔ ∃ p ∈ pdf, keyPdf p = k := by
  rw [pdfKeys, mem_dropDuplicates, List.mem_map]

theorem mem_missing_in_pdf {excel : List Row} {pdf : List PdfRecord}
    {k : String × String} :
    k ∈ missing_in_pdf excel pdf ↔
      (∃ e ∈ excel, keyExcel e = k) ∧ ¬ ∃ p ∈ pdf, keyPdf p = k := by
  rw [missing_in_pdf, List.mem_filter, decide_eq_true_eq, mem_excelKeys,
    mem_pdfKeys]

theorem mem_missing_in_excel {excel : List Row} {pdf : List PdfRecord}
    {k : String × String} :
    k ∈ missing_in_excel excel pdf ↔
      (∃ p ∈ pdf, keyPdf p = k) ∧ ¬ ∃ e ∈ excel, keyExcel e = k := by
  rw [missing_in_excel, List.mem_filter, decide_eq_true_eq, mem_pdfKeys,
    mem_excelKeys]

/-- C6: the missing-in-PDF output contains exactly the composite keys of
some Excel record that are the key of no PDF record, and the
missing-in-Excel output exactly the composite keys of some PDF record that
are the key of no Excel record; membership depends only on key presence
(one or more occurrences), never on multiplicity. -/
theorem C6_missing_sets_exact (excel : List Row) (pdf : List PdfRecord)
    (k : String × String) :
    (k ∈ missing_in_pdf excel pdf ↔
      (∃ e ∈ excel, keyExcel e = k) ∧ ¬ ∃ p ∈ pdf, keyPdf p = k) ∧
    (k ∈ missing_in_excel excel pdf ↔
      (∃ p ∈ pdf, keyPdf p = k) ∧ ¬ ∃ e ∈ excel, keyExcel e = k) :=
  ⟨mem_missing_in_pdf, mem_missing_in_excel⟩

/-! ### String-label distinctness tools -/

theorem data_append_str (a b : String) : (a ++ b).data = a.data ++ b.data := by
  cases a
  cases b
  rfl

theorem append_cancel_str {a b s : String} (h : a ++ s = b ++ s) : a = b := by
  apply string_ext
  exact List.append_cancel_right (show a.data ++ s.data = b.data ++ s.data by
    rw [← data_append_str, ← data_append_str, h])

theorem last_append_str (a y : String) (c : Char)
    (hy : y.data.reverse.head? = some c) :
    (a ++ y).data.reverse.head? = some c := by
  rw [data_append_str, List.reverse_append]
  rcases hl : y.data.reverse with _ | ⟨d, ds⟩
  · rw [hl] at hy
    cases hy
  · simp only [List.cons_append, List.head?_cons]
    rw [hl, List.head?_cons] at hy
    exact hy

theorem ne_append_of_last_ne (cx cy : Char) {x y : String}
    (hx : x.data.reverse.head? = some cx) (hy : y.data.reverse.head? = some cy)
    (hne : ¬ cx = cy) (b : String) : ¬ x = b ++ y := by
  intro hc
  apply hne
  have hd := congrArg (fun s : String => s.data.reverse.head?) hc
  simp only [data_append_str, List.reverse_append] at hd
  rcases hl : y.data.reverse with _ | ⟨d, ds⟩
  · rw [hl] at hy
    cases hy
  · rw [hl, List.cons_append, List.head?_cons] at hd
    rw [hl, List.head?_cons] at hy
    rw [hx] at hd
    cases hd
    cases hy
    rfl

theorem excel_suffix_ne_pdf_suffix (a b : String) :
    ¬ a ++ "_EXCEL" = b ++ "_PDF" :=
  ne_append_of_last_ne 'L' 'F'
    (last_append_str a "_EXCEL" 'L' (by decide)) (by decide) (by decide) b

theorem key_ne_excel_suffix :
    ∀ kc ∈ keyCols, ∀ b : String, ¬ kc = b ++ "_EXCEL" := by
  intro kc hkc b
  have h2 : kc = "REGISTER_NO" ∨ kc = "SUB_CODE" := by
    simpa [keyCols] using hkc
  rcases h2 with rfl | rfl
  · exact ne_append_of_last_ne 'O' 'L' (by decide) (by decide) (by decide) b
  · exact ne_append_of_last_ne 'E' 'L' (by decide) (by decide) (by decide) b

theorem pdfColNonKey_ne_pdf_suffix :
    ∀ c ∈ pdfColsNonKey, ∀ b : String, ¬ c = b ++ "_PDF" := by
  intro c hc b
  have h5 : c = "SUBJECT_NAME" ∨ c = "COURSE_CREDIT" ∨ c = "GRADE" ∨
      c = "GRADE_POINT" ∨ c = "RESULT" := by
    simpa [pdfColsNonKey] using hc
  rcases h5 with rfl | rfl | rfl | rfl | rfl
  · exact ne_append_of_last_ne 'E' 'F' (by decide) (by decide) (by decide) b
  · exact ne_append_of_last_ne 'T' 'F' (by decide) (by decide) (by decide) b
  · exact ne_append_of_last_ne 'E' 'F' (by decide) (by decide) (by decide) b
  · exact ne_append_of_last_ne 'T' 'F' (by decide) (by decide) (by decide) b
  · exact ne_append_of_last_ne 'T' 'F' (by decide) (by decide) (by decide) b

/-! ### Association-list lookup lemmas -/

theorem rowGet_map_of_mem (cs : List String) (f : String → String)
    (v : String → String) (c0 n : String) (hc0 : c0 ∈ cs) (hn : f c0 = n)
    (huniq : ∀ c ∈ cs, f c = n → v c = v c0) :
    rowGet (cs.map (fun c => (f c, v c))) n = some (v c0) := by
  induction cs with
  | nil => cases hc0
  | cons c cs ih =>
    rw [List.map_cons, rowGet]
    by_cases hf : f c = n
    · rw [List.find?_cons_of_pos _ (by simpa using hf)]
      simp [huniq c (List.mem_cons_self c cs) hf]
    · rw [List.find?_cons_of_neg _ (by simpa using hf)]
      rcases List.mem_cons.mp hc0 with heq | hc0'
      · exact absurd (heq ▸ hn) hf
      · exact ih hc0' (fun c2 h2 => huniq c2 (List.mem_cons_of_mem _ h2))

theorem rowGet_map_of_miss (cs : List String) (f : String → String)
    (v : String → String) (n : String) (h : ∀ c ∈ cs, ¬ f c = n) :
    rowGet (cs.map (fun c => (f c, v c))) n = none := by
  induction cs with
  | nil => rfl
  | cons c cs ih =>
    rw [List.map_cons, rowGet,
      List.find?_cons_of_neg _ (by simpa using h c (List.mem_cons_self c cs))]
    exact ih (fun c2 h2 => h c2 (List.mem_cons_of_mem _ h2))

theorem rowGet_append_eq (r1 r2 : Row) (n : String) :
    rowGet (r1 ++ r2) n = (rowGet r1 n).or (rowGet r2 n) := by
  induction r1 with
  | nil => simp [rowGet]
  | cons pr r1 ih =>
    by_cases hp : pr.1 = n
    · rw [List.cons_append, rowGet, List.find?_cons_of_pos _ (by simpa using hp),
        show rowGet (pr :: r1) n = some pr.2 from by
          rw [rowGet, List.find?_cons_of_pos _ (by simpa using hp)]
          rfl]
      rfl
    · rw [List.cons_append,
        show rowGet (pr :: (r1 ++ r2)) n = rowGet (r1 ++ r2) n from by
          rw [rowGet, List.find?_cons_of_neg _ (by simpa using hp)]
          rfl,
        show rowGet (pr :: r1) n = rowGet r1 n from by
          rw [rowGet, List.find?_cons_of_neg _ (by simpa using hp)]
          rfl,
        ih]

/-! ### Lookups in the merged row -/

theorem compareCols_in_pdfColsNonKey : ∀ c ∈ compare_cols, c ∈ pdfColsNonKey := by
  decide

theorem compareCols_props : ∀ c ∈ compare_cols, c ∈ pdfCols ∧ ¬ c ∈ keyCols := by
  decide

theorem mem_mergedColumns_pdf {cols : List String} {col : String}
    (hcol : col ∈ compare_cols) (hc : col ∈ cols) :
    (col ++ "_PDF") ∈ mergedColumns cols := by
  apply List.mem_append_right
  rw [List.mem_map]
  refine ⟨col, compareCols_in_pdfColsNonKey col hcol, ?_⟩
  rw [pdfColName, if_pos hc]

theorem rowGet_mergedRow_excel (cols : List String) (e : Row) (p : PdfRecord)
    (col : String) (hcol : col ∈ compare_cols) (hc : col ∈ cols)
    (hcleanE : ∀ c ∈ cols, ¬ c = col ++ "_EXCEL") :
    rowGet (mergedRow cols e p) (col ++ "_EXCEL") = some (rowGetD e col) := by
  rw [mergedRow, rowGet_append_eq,
    rowGet_map_of_mem cols excelColName (fun c => rowGetD e c) col
      (col ++ "_EXCEL") hc
      (by rw [excelColName, if_pos (compareCols_props col hcol)])
      ?_]
  · rfl
  · intro c hcmem hf
    rw [excelColName] at hf
    by_cases hcp : c ∈ pdfCols ∧ c ∉ keyCols
    · rw [if_pos hcp] at hf
      rw [append_cancel_str hf]
    · rw [if_neg hcp] at hf
      exact absurd hf (hcleanE c hcmem)

theorem rowGet_mergedRow_pdf (cols : List String) (e : Row) (p : PdfRecord)
    (col : String) (hcol : col ∈ compare_cols) (hc : col ∈ cols)
    (hcleanP : ∀ c ∈ cols, ¬ c = col ++ "_PDF") :
    rowGet (mergedRow cols e p) (col ++ "_PDF") = some (pdfField p col) := by
  rw [mergedRow, rowGet_append_eq,
    rowGet_map_of_miss cols excelColName (fun c => rowGetD e c)
      (col ++ "_PDF") ?_,
    rowGet_map_of_mem pdfColsNonKey (pdfColName cols) (pdfField p) col
      (col ++ "_PDF") (compareCols_in_pdfColsNonKey col hcol)
      (by rw [pdfColName, if_pos hc]) ?_]
  · rfl
  · intro c hcmem hf
    rw [pdfColName] at hf
    by_cases hcc : c ∈ cols
    · rw [if_pos hcc] at hf
      rw [append_cancel_str hf]
    · rw [if_neg hcc] at hf
      exact absurd hf (pdfColNonKey_ne_pdf_suffix c hcmem col)
  · intro c hcmem
    rw [excelColName]
    by_cases hcp : c ∈ pdfCols ∧ c ∉ keyCols
    · rw [if_pos hcp]
      exact excel_suffix_ne_pdf_suffix c col
    · rw [if_neg hcp]
      exact hcleanP c hcmem

theorem rowGet_mergedRow_key (cols : List String) (e : Row) (p : PdfRecord)
    (kc : String) (hkc : kc ∈ keyCols) (hc : kc ∈ cols) :
    rowGet (mergedRow cols e p) kc = some (rowGetD e kc) := by
  rw [mergedRow, rowGet_append_eq,
    rowGet_map_of_mem cols excelColName (fun c => rowGetD e c) kc kc hc
      (by
        rw [excelColName, if_neg]
        rintro ⟨h1, h2⟩
        exact h2 hkc) ?_]
  · rfl
  · intro c hcmem hf
    rw [excelColName] at hf
    by_cases hcp : c ∈ pdfCols ∧ c ∉ keyCols
    · rw [if_pos hcp] at hf
      exact absurd hf.symm (key_ne_excel_suffix kc hkc c)
    · rw [if_neg hcp] at hf
      rw [hf]

/-! ### The mismatch predicate in terms of field values -/

theorem colDiffers_eq_simple (cols : List String) (e : Row) (p : PdfRecord)
    (col : String) (hcol : col ∈ compare_cols) (hc : col ∈ cols)
    (hcleanE : ∀ c ∈ cols, ¬ c = col ++ "_EXCEL")
    (hcleanP : ∀ c ∈ cols, ¬ c = col ++ "_PDF") :
    colDiffers cols e p col =
      decide (¬ normValue (rowGetD e col) = normValue (pdfField p col)) := by
  rw [colDiffers, decide_eq_true (mem_mergedColumns_pdf hcol hc), Bool.true_and]
  have hE : rowGetD (mergedRow cols e p) (col ++ "_EXCEL") = rowGetD e col := by
    rw [rowGetD, rowGet_mergedRow_excel cols e p col hcol hc hcleanE]
    rfl
  have hP : rowGetD (mergedRow cols e p) (col ++ "_PDF") = pdfField p col := by
    rw [rowGetD, rowGet_mergedRow_pdf cols e p col hcol hc hcleanP]
    rfl
  rw [hE, hP]

theorem pairDiffers_iff (cols : List String) (e : Row) (p : PdfRecord)
    (hsub : ∀ c ∈ compare_cols, c ∈ cols)
    (hclean : ∀ c ∈ cols, ∀ d ∈ compare_cols,
      ¬ c = d ++ "_EXCEL" ∧ ¬ c = d ++ "_PDF") :
    (pairDiffers cols e p = true ↔
      ∃ col ∈ compare_cols,
        ¬ normValue (rowGetD e col) = normValue (pdfField p col)) := by
  rw [pairDiffers, List.any_eq_true]
  constructor
  · rintro ⟨col, hcol, hd⟩
    refine ⟨col, hcol, ?_⟩
    rw [colDiffers_eq_simple cols e p col hcol (hsub col hcol)
      (fun c hc2 => (hclean c hc2 col hcol).1)
      (fun c hc2 => (hclean c hc2 col hcol).2), decide_eq_true_eq] at hd
    exact hd
  · rintro ⟨col, hcol, hd⟩
    refine ⟨col, hcol, ?_⟩
    rw [colDiffers_eq_simple cols e p col hcol (hsub col hcol)
      (fun c hc2 => (hclean c hc2 col hcol).1)
      (fun c hc2 => (hclean c hc2 col hcol).2), decide_eq_true_eq]
    exact hd

/-! ### Claim C1: mismatch emission and mismatch-record content -/

/-- C1: for a key-matched (Excel row, PDF record) pair whose RESULT values
have had the synonym mapping applied (as the loading steps at
`src/app.py:104` and `src/app.py:128` guarantee), the pair is emitted as a
mismatch if and only if at least one comparison field's canonical
post-synonym values on the two sides differ (one side absent and the other
not also differ, being distinct strings); and the merged row carries the
composite key and, for every comparison field, both sides' values under
origin-suffixed labels. -/
theorem C1_mismatch_iff_and_content (cols : List String) (excel : List Row)
    (pdf : List PdfRecord) (e : Row) (p : PdfRecord)
    (hsub : ∀ c ∈ compare_cols, c ∈ cols)
    (hclean : ∀ c ∈ cols, ∀ d ∈ compare_cols,
      ¬ c = d ++ "_EXCEL" ∧ ¬ c = d ++ "_PDF")
    (hk1 : "REGISTER_NO" ∈ cols) (hk2 : "SUB_CODE" ∈ cols)
    (hmem : (e, p) ∈ mergedPairs excel pdf)
    (hE : normalize_result (rowGetD e "RESULT") = rowGetD e "RESULT")
    (hP : normalize_result p.result = p.result) :
    ((e, p) ∈ mismatchPairs cols excel pdf ↔
      ∃ col ∈ compare_cols,
        ¬ specCanonicalValue col (rowGetD e col) =
          specCanonicalValue col (pdfField p col)) ∧
    rowGet (mergedRow cols e p) "REGISTER_NO" = some (rowGetD e "REGISTER_NO") ∧
    rowGet (mergedRow cols e p) "SUB_CODE" = some (rowGetD e "SUB_CODE") ∧
    (∀ col ∈ compare_cols,
      rowGet (mergedRow cols e p) (col ++ "_EXCEL") = some (rowGetD e col) ∧
      rowGet (mergedRow cols e p) (col ++ "_PDF") = some (pdfField p col)) := by
  have hcanE : ∀ col ∈ compare_cols,
      specCanonicalValue col (rowGetD e col) = normValue (rowGetD e col) := by
    intro col hcolm
    rw [specCanonicalValue]
    by_cases hr : col = "RESULT"
    · subst hr
      rw [if_pos rfl]
      have h3 := normValue_normalize_result (rowGetD e "RESULT")
      rw [hE] at h3
      exact hE.trans h3.symm
    · rw [if_neg hr]
  have hcanP : ∀ col ∈ compare_cols,
      specCanonicalValue col (pdfField p col) = normValue (pdfField p col) := by
    intro col hcolm
    rw [specCanonicalValue]
    by_cases hr : col = "RESULT"
    · subst hr
      show normalize_result p.result = normValue p.result
      have h3 := normValue_normalize_result p.result
      rw [hP] at h3
      exact hP.trans h3.symm
    · rw [if_neg hr]
  have hiff : ((e, p) ∈ mismatchPairs cols excel pdf ↔
      pairDiffers cols e p = true) := by
    rw [mismatchPairs, List.mem_filter]
    constructor
    · rintro ⟨h1, h2⟩
      exact h2
    · intro h2
      exact ⟨hmem, h2⟩
  refine ⟨?_, ?_, ?_, ?_⟩
  · rw [hiff, pairDiffers_iff cols e p hsub hclean]
    constructor
    · rintro ⟨col, hcolm, hd⟩
      refine ⟨col, hcolm, ?_⟩
      rw [hcanE col hcolm, hcanP col hcolm]
      exact hd
    · rintro ⟨col, hcolm, hd⟩
      refine ⟨col, hcolm, ?_⟩
      rw [← hcanE col hcolm, ← hcanP col hcolm]
      exact hd
  · exact rowGet_mergedRow_key cols e p "REGISTER_NO" (by decide) hk1
  · exact rowGet_mergedRow_key cols e p "SUB_CODE" (by decide) hk2
  · intro col hcolm
    exact ⟨rowGet_mergedRow_excel cols e p col hcolm (hsub col hcolm)
        (fun c hc2 => (hclean c hc2 col hcolm).1),
      rowGet_mergedRow_pdf cols e p col hcolm (hsub col hcolm)
        (fun c hc2 => (hclean c hc2 col hcolm).2)⟩

/-- Witness for C1 at concrete data: all hypotheses hold and the mismatch
characterisation follows. -/
theorem C1_witness :
    ((∀ c ∈ compare_cols, c ∈ stdCols) ∧
     (rowA, pdfA) ∈ mergedPairs [rowA] [pdfA] ∧
     normalize_result (rowGetD rowA "RESULT") = rowGetD rowA "RESULT" ∧
     normalize_result pdfA.result = pdfA.result) ∧
    ((rowA, pdfA) ∈ mismatchPairs stdCols [rowA] [pdfA] ↔
      ∃ col ∈ compare_cols,
        ¬ specCanonicalValue col (rowGetD rowA col) =
          specCanonicalValue col (pdfField pdfA col)) :=
  ⟨⟨by decide, by decide, by decide, by decide⟩,
   (C1_mismatch_iff_and_content stdCols [rowA] [pdfA] rowA pdfA (by decide)
     (by decide) (by decide) (by decide) (by decide) (by decide) (by decide)).1⟩

/-! ### Claim C2: absent-value handling (corrected) -/

theorem specIsAbsent_congr {a b : String} (h : normValue a = normValue b) :
    specIsAbsent a = specIsAbsent b := by
  rw [specIsAbsent, specIsAbsent, h]

/-- C2 counterexample: with the key matched and every other field equal, a
comparison field absent on both sides (Excel NAN, PDF NONE) is the only
differing column, yet the code emits a mismatch — so a field absent on both
sides can produce a mismatch. -/
theorem C2_counterexample :
    specIsAbsent (rowGetD rowNan "SUBJECT_NAME") = true ∧
    specIsAbsent (pdfField pdfNone "SUBJECT_NAME") = true ∧
    colDiffers stdCols rowNan pdfNone "SUBJECT_NAME" = true ∧
    colDiffers stdCols rowNan pdfNone "GRADE" = false ∧
    colDiffers stdCols rowNan pdfNone "GRADE_POINT" = false ∧
    colDiffers stdCols rowNan pdfNone "RESULT" = false ∧
    (rowNan, pdfNone) ∈ mismatchPairs stdCols [rowNan] [pdfNone] := by
  decide

/-- C2 (amended): values are compared as literal normalised strings with no
absent-value exclusion. For a key-matched pair and a comparison column
present on both sides: when the field is absent on both sides it produces a
mismatch exactly when the two normalised tokens differ (e.g. NAN vs NONE);
when it is absent on exactly one side it always differs and the pair is
emitted as a mismatch. -/
theorem C2_absence_semantics (cols : List String) (excel : List Row)
    (pdf : List PdfRecord) (e : Row) (p : PdfRecord) (col : String)
    (hcol : col ∈ compare_cols) (hc : col ∈ cols)
    (hcleanE : ∀ c ∈ cols, ¬ c = col ++ "_EXCEL")
    (hcleanP : ∀ c ∈ cols, ¬ c = col ++ "_PDF")
    (hmem : (e, p) ∈ mergedPairs excel pdf) :
    (specIsAbsent (rowGetD e col) = true →
      specIsAbsent (pdfField p col) = true →
      (colDiffers cols e p col = true ↔
        ¬ normValue (rowGetD e col) = normValue (pdfField p col))) ∧
    (¬ specIsAbsent (rowGetD e col) = specIsAbsent (pdfField p col) →
      colDiffers cols e p col = true ∧
      (e, p) ∈ mismatchPairs cols excel pdf) := by
  constructor
  · intro h1 h2
    rw [colDiffers_eq_simple cols e p col hcol hc hcleanE hcleanP,
      decide_eq_true_eq]
  · intro hne
    have hv : ¬ normValue (rowGetD e col) = normValue (pdfField p col) :=
      fun hc2 => hne (specIsAbsent_congr hc2)
    have hcd : colDiffers cols e p col = true := by
      rw [colDiffers_eq_simple cols e p col hcol hc hcleanE hcleanP,
        decide_eq_true_eq]
      exact hv
    refine ⟨hcd, ?_⟩
    rw [mismatchPairs, List.mem_filter]
    refine ⟨hmem, ?_⟩
    rw [pairDiffers, List.any_eq_true]
    exact ⟨col, hcol, hcd⟩

/-- Witness for C2 (amended) at concrete data: SUBJECT_NAME is absent on the
Excel side only, and the pair is emitted as a mismatch. -/
theorem C2_witness :
    ("SUBJECT_NAME" ∈ compare_cols ∧ "SUBJECT_NAME" ∈ stdCols ∧
     (rowNan, pdfA) ∈ mergedPairs [rowNan] [pdfA] ∧
     ¬ specIsAbsent (rowGetD rowNan "SUBJECT_NAME") =
       specIsAbsent (pdfField pdfA "SUBJECT_NAME")) ∧
    ((rowNan, pdfA) ∈ mismatchPairs stdCols [rowNan] [pdfA]) :=
  ⟨⟨by decide, by decide, by decide, by decide⟩,
   ((C2_absence_semantics stdCols [rowNan] [pdfA] rowNan pdfA "SUBJECT_NAME"
     (by decide) (by decide) (by decide) (by decide) (by decide)).2
     (by decide)).2⟩

/-! ### Claim C5: join totality (corrected) -/

theorem eq_of_filter_length_le_one {α : Type} (q : α → Bool) (l : List α)
    (h : (l.filter q).length ≤ 1) {x y : α} (hx : x ∈ l) (hy : y ∈ l)
    (qx : q x = true) (qy : q y = true) : x = y := by
  have hxf : x ∈ l.filter q := List.mem_filter.mpr ⟨hx, qx⟩
  have hyf : y ∈ l.filter q := List.mem_filter.mpr ⟨hy, qy⟩
  rcases hl : l.filter q with _ | ⟨a, rest⟩
  · rw [hl] at hxf
    cases hxf
  · rcases rest with _ | ⟨b, rest2⟩
    · rw [hl] at hxf hyf
      have h1 := List.mem_singleton.mp hxf
      have h2 := List.mem_singleton.mp hyf
      rw [h1, h2]
    · rw [hl] at h
      simp only [List.length_cons] at h
      omega

/-- C5 counterexample: with a duplicated composite key on the Excel side
(grades A and B) joined against one PDF record (grade A), the key is in
both sequences yet appears in the mismatch set and in the match set at
once. -/
theorem C5_counterexample :
    (∃ pr ∈ mismatchPairs stdCols [rowA, rowB] [pdfA],
      keyExcel pr.1 = ("1", "CS1101")) ∧
    (∃ pr ∈ matchPairs stdCols [rowA, rowB] [pdfA],
      keyExcel pr.1 = ("1", "CS1101")) ∧
    ("1", "CS1101") ∈ excelKeys [rowA, rowB] ∧
    ("1", "CS1101") ∈ pdfKeys [pdfA] := by
  decide

/-- C5 (amended): every joined record pair falls in exactly one of the match
and mismatch sets; a composite key present in both key sets appears in at
least one of the two, and in exactly one when it occurs at most once on
each side (with duplicate keys the fan-out join can place a key in both);
and every key present on either side falls in exactly one of
present-on-both, missing-from-text, missing-from-tabular. -/
theorem C5_join_totality (cols : List String) (excel : List Row)
    (pdf : List PdfRecord) (k : String × String) :
    (∀ pr ∈ mergedPairs excel pdf,
      (pr ∈ mismatchPairs cols excel pdf ↔
        ¬ pr ∈ matchPairs cols excel pdf)) ∧
    (k ∈ excelKeys excel → k ∈ pdfKeys pdf →
      ((∃ pr ∈ mismatchPairs cols excel pdf, keyExcel pr.1 = k) ∨
       (∃ pr ∈ matchPairs cols excel pdf, keyExcel pr.1 = k))) ∧
    ((excel.filter (fun e2 => decide (keyExcel e2 = k))).length ≤ 1 →
     (pdf.filter (fun p2 => decide (keyPdf p2 = k))).length ≤ 1 →
      ¬ ((∃ pr ∈ mismatchPairs cols excel pdf, keyExcel pr.1 = k) ∧
         (∃ pr ∈ matchPairs cols excel pdf, keyExcel pr.1 = k))) ∧
    (k ∈ excelKeys excel ∨ k ∈ pdfKeys pdf →
      ((k ∈ excelKeys excel ∧ k ∈ pdfKeys pdf) ∨
        k ∈ missing_in_pdf excel pdf ∨ k ∈ missing_in_excel excel pdf)) ∧
    ¬ ((k ∈ excelKeys excel ∧ k ∈ pdfKeys pdf) ∧
        k ∈ missing_in_pdf excel pdf) ∧
    ¬ ((k ∈ excelKeys excel ∧ k ∈ pdfKeys pdf) ∧
        k ∈ missing_in_excel excel pdf) ∧
    ¬ (k ∈ missing_in_pdf excel pdf ∧ k ∈ missing_in_excel excel pdf) := by
  refine ⟨?_, ?_, ?_, ?_, ?_, ?_, ?_⟩
  · intro pr hpr
    rw [mismatchPairs, matchPairs, List.mem_filter, List.mem_filter]
    constructor
    · rintro ⟨h1, h2⟩ ⟨h3, h4⟩
      rw [h2] at h4
      cases h4
    · intro hn
      by_cases hd : pairDiffers cols pr.1 pr.2
      · exact ⟨hpr, hd⟩
      · exact absurd ⟨hpr, by simp [hd]⟩ hn
  · intro hkE hkP
    obtain ⟨e, he, hke⟩ := mem_excelKeys.mp hkE
    obtain ⟨p, hp, hkp⟩ := mem_pdfKeys.mp hkP
    have hm : (e, p) ∈ mergedPairs excel pdf :=
      mem_mergedPairs.mpr ⟨he, hp, hkp.trans hke.symm⟩
    by_cases hd : pairDiffers cols e p
    · exact Or.inl ⟨(e, p), List.mem_filter.mpr ⟨hm, hd⟩, hke⟩
    · exact Or.inr ⟨(e, p), List.mem_filter.mpr ⟨hm, by simp [hd]⟩, hke⟩
  · intro h1 h2 hc
    obtain ⟨⟨pr1, hpr1, hk1⟩, ⟨pr2, hpr2, hk2⟩⟩ := hc
    obtain ⟨e1, p1⟩ := pr1
    obtain ⟨e2, p2⟩ := pr2
    rw [mismatchPairs, List.mem_filter] at hpr1
    rw [matchPairs, List.mem_filter] at hpr2
    obtain ⟨he1, hp1, hkp1⟩ := mem_mergedPairs.mp hpr1.1
    obtain ⟨he2, hp2, hkp2⟩ := mem_mergedPairs.mp hpr2.1
    have hee : e1 = e2 :=
      eq_of_filter_length_le_one _ excel h1 he1 he2
        (decide_eq_true hk1) (decide_eq_true hk2)
    have hpp : p1 = p2 :=
      eq_of_filter_length_le_one _ pdf h2 hp1 hp2
        (decide_eq_true (hkp1.trans hk1)) (decide_eq_true (hkp2.trans hk2))
    subst hee
    subst hpp
    have hd1 := hpr1.2
    have hd2 := hpr2.2
    rw [hd1] at hd2
    cases hd2
  · intro hor
    by_cases hE : k ∈ excelKeys excel
    · by_cases hP : k ∈ pdfKeys pdf
      · exact Or.inl ⟨hE, hP⟩
      · refine Or.inr (Or.inl ?_)
        exact mem_missing_in_pdf.mpr
          ⟨mem_excelKeys.mp hE, fun hc2 => hP (mem_pdfKeys.mpr hc2)⟩
    · rcases hor with hE2 | hP
      · exact absurd hE2 hE
      · refine Or.inr (Or.inr ?_)
        exact mem_missing_in_excel.mpr
          ⟨mem_pdfKeys.mp hP, fun hc2 => hE (mem_excelKeys.mpr hc2)⟩
  · rintro ⟨⟨hE, hP⟩, hm⟩
    exact (mem_missing_in_pdf.mp hm).2 (mem_pdfKeys.mp hP)
  · rintro ⟨⟨hE, hP⟩, hm⟩
    exact (mem_missing_in_excel.mp hm).2 (mem_excelKeys.mp hE)
  · rintro ⟨hm1, hm2⟩
    exact (mem_missing_in_pdf.mp hm1).2 (mem_missing_in_excel.mp hm2).1

/-- Witness for C5 at concrete data: the key is present on both sides and
lands in the match set or the mismatch set. -/
theorem C5_witness :
    (("1", "CS1101") ∈ excelKeys [rowA] ∧ ("1", "CS1101") ∈ pdfKeys [pdfA]) ∧
    ((∃ pr ∈ mismatchPairs stdCols [rowA] [pdfA],
        keyExcel pr.1 = ("1", "CS1101")) ∨
     (∃ pr ∈ matchPairs stdCols [rowA] [pdfA],
        keyExcel pr.1 = ("1", "CS1101"))) :=
  ⟨⟨by decide, by decide⟩,
   (C5_join_totality stdCols [rowA] [pdfA] ("1", "CS1101")).2.1
     (by decide) (by decide)⟩

/-! ### Whitespace-collapse lemmas and claim C3 -/

theorem head_dropWhile_all (p : Char → Bool) (l : List Char) :
    (l.dropWhile p).head?.all (fun c => !p c) = true := by
  induction l with
  | nil => rfl
  | cons c cs ih =>
    rw [List.dropWhile_cons]
    by_cases h : p c
    · rw [if_pos h]
      exact ih
    · rw [if_neg h]
      simp [h]

theorem dropWhile_eq_nil_of_all (p : Char → Bool) (l : List Char)
    (h : ∀ c ∈ l, p c = true) : l.dropWhile p = [] := by
  induction l with
  | nil => rfl
  | cons c cs ih =>
    rw [List.dropWhile_cons, if_pos (h c (List.mem_cons_self c cs))]
    exact ih (fun c2 h2 => h c2 (List.mem_cons_of_mem _ h2))

theorem collapseGo_all_space (l : List Char) :
    ∀ b, (collapseGo b l).all (fun c => !isWs c || c = ' ') = true := by
  induction l with
  | nil =>
    intro b
    cases b <;> rfl
  | cons c cs ih =>
    intro b
    cases b
    · show ((if isWs c then ' ' :: collapseGo true cs
          else c :: collapseGo false cs).all _) = true
      by_cases hw : isWs c
      · rw [if_pos hw]
        simp [ih true]
      · rw [if_neg hw]
        simp [hw, ih false]
    · show ((if isWs c then collapseGo true cs
          else c :: collapseGo false cs).all _) = true
      by_cases hw : isWs c
      · rw [if_pos hw]
        exact ih true
      · rw [if_neg hw]
        simp [hw, ih false]

theorem collapseGo_filter (l : List Char) :
    ∀ b, (collapseGo b l).filter (fun c => !isWs c) =
      l.filter (fun c => !isWs c) := by
  induction l with
  | nil =>
    intro b
    cases b <;> rfl
  | cons c cs ih =>
    intro b
    cases b
    · show ((if isWs c then ' ' :: collapseGo true cs
          else c :: collapseGo false cs).filter _) =
        (c :: cs).filter (fun c => !isWs c)
      by_cases hw : isWs c
      · rw [if_pos hw]
        simp only [List.filter_cons]
        rw [show (!isWs ' ') = false from rfl, show (!isWs c) = false from by
          simp [hw]]
        simp only [Bool.false_eq_true, if_false]
        exact ih true
      · rw [if_neg hw]
        simp only [List.filter_cons]
        rw [show (!isWs c) = true from by simp [hw]]
        simp only [if_true]
        rw [ih false]
    · show ((if isWs c then collapseGo true cs
          else c :: collapseGo false cs).filter _) =
        (c :: cs).filter (fun c => !isWs c)
      by_cases hw : isWs c
      · rw [if_pos hw]
        simp only [List.filter_cons]
        rw [show (!isWs c) = false from by simp [hw]]
        simp only [Bool.false_eq_true, if_false]
        exact ih true
      · rw [if_neg hw]
        simp only [List.filter_cons]
        rw [show (!isWs c) = true from by simp [hw]]
        simp only [if_true]
        rw [ih false]

theorem collapseGo_true_head (l : List Char) :
    (collapseGo true l).head?.all (fun c => !isWs c) = true := by
  induction l with
  | nil => rfl
  | cons c cs ih =>
    show ((if isWs c then collapseGo true cs
        else c :: collapseGo false cs).head?.all _) = true
    by_cases hw : isWs c
    · rw [if_pos hw]
      exact ih
    · rw [if_neg hw]
      simp [hw]

theorem collapseGo_noAdj (l : List Char) :
    ∀ b, noAdjWs (collapseGo b l) = true := by
  induction l with
  | nil =>
    intro b
    cases b <;> rfl
  | cons c cs ih =>
    intro b
    have hcons : ∀ x : Char, (!isWs x) = true →
        noAdjWs (x :: collapseGo false cs) = true := by
      intro x hx
      rcases hr : collapseGo false cs with _ | ⟨d, ds⟩
      · rfl
      · show ((!isWs x || !isWs d) && noAdjWs (d :: ds)) = true
        rw [hx, Bool.true_or, Bool.true_and, ← hr]
        exact ih false
    cases b
    · show noAdjWs (if isWs c then ' ' :: collapseGo true cs
          else c :: collapseGo false cs) = true
      by_cases hw : isWs c
      · rw [if_pos hw]
        rcases hr : collapseGo true cs with _ | ⟨d, ds⟩
        · rfl
        · show ((!isWs ' ' || !isWs d) && noAdjWs (d :: ds)) = true
          have hd : (!isWs d) = true := by
            have := collapseGo_true_head cs
            rw [hr] at this
            simpa using this
          rw [hd, Bool.or_true, Bool.true_and, ← hr]
          exact ih true
      · rw [if_neg hw]
        exact hcons c (by simp [hw])
    · show noAdjWs (if isWs c then collapseGo true cs
          else c :: collapseGo false cs) = true
      by_cases hw : isWs c
      · rw [if_pos hw]
        exact ih true
      · rw [if_neg hw]
        exact hcons c (by simp [hw])

theorem collapseGo_false_head (l : List Char)
    (h : l.head?.all (fun c => !isWs c) = true) :
    (collapseGo false l).head?.all (fun c => !isWs c) = true := by
  cases l with
  | nil => rfl
  | cons c cs =>
    have hc : isWs c = false := by simpa using h
    show ((if isWs c then ' ' :: collapseGo true cs
        else c :: collapseGo false cs).head?.all _) = true
    rw [if_neg (by simp [hc])]
    simp [hc]

theorem collapseGo_getLast (l : List Char) :
    ∀ b, l.getLast?.all (fun c => !isWs c) = true →
      (collapseGo b l).getLast?.all (fun c => !isWs c) = true := by
  induction l with
  | nil =>
    intro b _
    cases b <;> rfl
  | cons c cs ih =>
    intro b h
    rcases cs with _ | ⟨d, ds⟩
    · have hc : isWs c = false := by
        simpa [List.getLast?] using h
      cases b
      · show ((if isWs c then ' ' :: collapseGo true []
            else c :: collapseGo false []).getLast?.all _) = true
        rw [if_neg (by simp [hc])]
        show (!isWs c) = true
        simp [hc]
      · show ((if isWs c then collapseGo true []
            else c :: collapseGo false []).getLast?.all _) = true
        rw [if_neg (by simp [hc])]
        show (!isWs c) = true
        simp [hc]
    · have h2 : (d :: ds).getLast?.all (fun c => !isWs c) = true := by
        rw [← List.getLast?_cons_cons]
        exact h
      have hlast : ∀ b2, ∀ x : Char,
          (x :: collapseGo b2 (d :: ds)).getLast?.all
            (fun c => !isWs c) = true := by
        intro b2 x
        have hne : ¬ collapseGo b2 (d :: ds) = [] := by
          intro hc0
          obtain ⟨y, hy⟩ : ∃ y, (d :: ds).getLast? = some y := by
            rcases hg : (d :: ds).getLast? with _ | y
            · rw [List.getLast?_eq_none_iff] at hg
              cases hg
            · exact ⟨y, rfl⟩
          have hym : y ∈ d :: ds := List.mem_of_getLast?_eq_some hy
          have hyw : (!isWs y) = true := by
            rw [hy] at h2
            simpa using h2
          have hfil := collapseGo_filter (d :: ds) b2
          rw [hc0] at hfil
          have : y ∈ List.filter (fun c => !isWs c) (d :: ds) :=
            List.mem_filter.mpr ⟨hym, hyw⟩
          rw [← hfil] at this
          cases this
        rcases hr : collapseGo b2 (d :: ds) with _ | ⟨z, zs⟩
        · exact absurd hr hne
        · rw [List.getLast?_cons_cons, ← hr]
          exact ih b2 h2
      cases b
      · show ((if isWs c then ' ' :: collapseGo true (d :: ds)
            else c :: collapseGo false (d :: ds)).getLast?.all _) = true
        by_cases hw : isWs c
        · rw [if_pos hw]
          exact hlast true ' '
        · rw [if_neg hw]
          exact hlast false c
      · show ((if isWs c then collapseGo true (d :: ds)
            else c :: collapseGo false (d :: ds)).getLast?.all _) = true
        by_cases hw : isWs c
        · rw [if_pos hw]
          exact ih true h2
        · rw [if_neg hw]
          exact hlast false c

theorem pyStripL_head (l : List Char) :
    (pyStripL l).head?.all (fun c => !isWs c) = true := by
  rw [pyStripL]
  rcases hf : stripFront l with _ | ⟨c, cs⟩
  · rfl
  · have hc : isWs c = false := by
      have h0 := head_dropWhile_all isWs l
      rw [show l.dropWhile isWs = stripFront l from rfl, hf] at h0
      simpa using h0
    rw [stripBack_cons_not_ws hc]
    simp [hc]

theorem pyStripL_getLast (l : List Char) :
    (pyStripL l).getLast?.all (fun c => !isWs c) = true := by
  rw [pyStripL, stripBack, List.getLast?_reverse]
  exact head_dropWhile_all isWs (stripFront l).reverse

theorem filter_dropWhile (x : List Char) :
    (x.dropWhile isWs).filter (fun c => !isWs c) =
      x.filter (fun c => !isWs c) := by
  induction x with
  | nil => rfl
  | cons c cs ih =>
    rw [List.dropWhile_cons]
    by_cases h : isWs c
    · rw [if_pos h, List.filter_cons]
      rw [show (!isWs c) = false from by simp [h]]
      simp only [Bool.false_eq_true, if_false]
      exact ih
    · rw [if_neg h]

theorem pyStripL_filter (l : List Char) :
    (pyStripL l).filter (fun c => !isWs c) = l.filter (fun c => !isWs c) := by
  rw [pyStripL, stripBack, List.filter_reverse, filter_dropWhile,
    List.filter_reverse, List.reverse_reverse, stripFront, filter_dropWhile]

/-- C3 counterexample: on the raw stream " a b" the code's preprocessing
yields "a b" (stripped, collapsed, case preserved) whereas the claimed
preprocessing (runs replaced by a single space, then uppercased) yields
" A B". -/
theorem C3_counterexample :
    preprocessText " a b" = "a b".data ∧
    specClaimedPreprocess " a b" = " A B".data ∧
    ¬ preprocessText " a b" = specClaimedPreprocess " a b" := by
  decide

/-- C3 (amended): before block segmentation the raw text stream is stripped
of leading and trailing whitespace and every interior run of whitespace
(including newlines) is collapsed to a single space; the stream is NOT
uppercased — all non-whitespace characters are preserved verbatim, in
order, with their case (the patterns are case-insensitive where intended
instead). -/
theorem C3_whitespace_collapse_not_uppercased (text : String) :
    noAdjWs (preprocessText text) = true ∧
    (preprocessText text).all (fun c => !isWs c || c = ' ') = true ∧
    (preprocessText text).head?.all (fun c => !isWs c) = true ∧
    (preprocessText text).getLast?.all (fun c => !isWs c) = true ∧
    (preprocessText text).filter (fun c => !isWs c) =
      text.data.filter (fun c => !isWs c) := by
  refine ⟨collapseGo_noAdj _ false, collapseGo_all_space _ false, ?_, ?_, ?_⟩
  · exact collapseGo_false_head _ (pyStripL_head text.data)
  · exact collapseGo_getLast _ false (pyStripL_getLast text.data)
  · rw [preprocessText, collapseRuns, collapseGo_filter (pyStripL text.data) false]
    exact pyStripL_filter text.data

/-! ### Claim C8: extractor robustness -/

theorem length_filterMap_eq {α β : Type} (f : α → Option β) (l : List α) :
    (l.filterMap f).length =
      (l.filter (fun x => (f x).isSome)).length := by
  induction l with
  | nil => rfl
  | cons x l ih =>
    rcases hx : f x with _ | y
    · simp [List.filterMap_cons, List.filter_cons, hx, ih]
    · simp [List.filterMap_cons, List.filter_cons, hx, ih]

/-- C8: the extractor is total and silently drops malformed input —
extraction of the empty text stream yields the empty record sequence, a
block with no register-number match contributes zero records, and within a
keyed block every candidate line contributes one record when it matches the
field pattern and zero records otherwise. -/
theorem C8_extractor_robust :
    extract_pdf_data "" = [] ∧
    (∀ block : List Char, searchRegisterKey block = none →
      extractBlock block = []) ∧
    (∀ block regno, searchRegisterKey block = some regno →
      (extractBlock block).length =
        ((splitLA block).filter
          (fun line => (matchLine (pyStripL line)).isSome)).length) := by
  refine ⟨rfl, ?_, ?_⟩
  · intro block h
    unfold extractBlock
    rw [h]
  · intro block regno h
    unfold extractBlock
    rw [h]
    show (List.filterMap _ (splitLA block)).length = _
    rw [length_filterMap_eq]
    simp only [Option.isSome_map']

/-- Witness for C8: a block without the key pattern yields no records, and a
keyed block's record count equals its matching-line count. -/
theorem C8_witness :
    searchRegisterKey "HELLO".data = none ∧
    extractBlock "HELLO".data = [] ∧
    searchRegisterKey "REGISTER NO 5".data = some "5".data ∧
    (extractBlock "REGISTER NO 5".data).length =
      ((splitLA "REGISTER NO 5".data).filter
        (fun line => (matchLine (pyStripL line)).isSome)).length :=
  ⟨by decide, C8_extractor_robust.2.1 "HELLO".data (by decide),
   by decide, C8_extractor_robust.2.2 "REGISTER NO 5".data "5".data (by decide)⟩

/-! ### Claim C7: abort behaviour (corrected) -/

/-- C7 counterexample: with zero tabular records and a PDF stream holding
one record, the run does not abort — it produces a report (with the PDF key
listed as extra), contradicting the claimed abort on zero usable tabular
records. -/
theorem C7_counterexample :
    runCompare stdCols [] samplePdfText =
      some ⟨[], [], [("1", "AB1234")]⟩ := by
  decide

/-- C7 (amended): if PDF extraction yields zero records — in particular for
empty or whitespace-only converter text — the run aborts with a user-facing
message and no report is produced.  A tabular side with zero usable records
does not abort: whenever both key columns are among the mapped Excel
columns and extraction yields at least one record, the run produces a
report, whatever the tabular rows (including none). -/
theorem C7_abort_semantics (rawCols : List String) (rawRows : List Row)
    (pdfText : String) :
    (extract_pdf_data pdfText = [] →
      runCompare rawCols rawRows pdfText = none) ∧
    (pdfText.data.all isWs = true →
      runCompare rawCols rawRows pdfText = none) ∧
    ("REGISTER_NO" ∈ loadExcelCols rawCols →
      "SUB_CODE" ∈ loadExcelCols rawCols →
      ¬ extract_pdf_data pdfText = [] →
      (runCompare rawCols rawRows pdfText).isSome = true) := by
  have habort : ∀ h : extract_pdf_data pdfText = [],
      runCompare rawCols rawRows pdfText = none := by
    intro h
    simp [runCompare, h]
  refine ⟨habort, ?_, ?_⟩
  · intro hws
    apply habort
    have h1 : pyStripL pdfText.data = [] := by
      rw [pyStripL, stripFront, dropWhile_eq_nil_of_all isWs pdfText.data
        (fun c hc => List.all_eq_true.mp hws c hc)]
      rfl
    show concatAll ((splitTerm (collapseRuns (pyStripL pdfText.data))).map
      extractBlock) = []
    rw [h1]
    rfl
  · intro hk1 hk2 hne
    have hie : (extract_pdf_data pdfText).isEmpty = false := by
      rcases hx : extract_pdf_data pdfText with _ | ⟨r, rs⟩
      · exact absurd hx hne
      · rfl
    simp [runCompare, hie, hk1, hk2]

/-- Witness for C7: whitespace-only converter text aborts the run, and with
the key columns present and a non-empty extraction the run produces a
report even with zero tabular rows. -/
theorem C7_witness :
    ((" \n\t ".data.all isWs = true) ∧
      runCompare stdCols [rowA] " \n\t " = none) ∧
    ("REGISTER_NO" ∈ loadExcelCols stdCols ∧
      "SUB_CODE" ∈ loadExcelCols stdCols ∧
      ¬ extract_pdf_data samplePdfText = [] ∧
      (runCompare stdCols [] samplePdfText).isSome = true) :=
  ⟨⟨by decide, (C7_abort_semantics stdCols [rowA] " \n\t ").2.1 (by decide)⟩,
   ⟨by decide, by decide, by decide,
    (C7_abort_semantics stdCols [] samplePdfText).2.2
      (by decide) (by decide) (by decide)⟩⟩

end Comparator
